import Mathlib

/-!
Verification of the fourtosix connection-routing core against its design
specification.  The Go sources are shallowly embedded: wire bytes become
`List Nat` (each element intended in 0..255), `io.Reader` byte sources become
the list of bytes remaining on the wire, fallible Go functions return a
`GoResult` distinguishing a clean Go `error` return from a runtime panic
(index / slice out of range), and the unbounded Go `for` loops take an
explicit fuel argument whose sufficiency is proved separately.
-/

set_option maxRecDepth 8000

/-- A wire byte, modelled as a natural number (intended range 0..255). -/
abbrev Byte := Nat

/-- Outcome of running a piece of Go code: a normal return, a clean Go
`error` return, or a runtime panic such as "index out of range". -/
inductive GoResult (α : Type) where
  | ok : α → GoResult α
  | error : String → GoResult α
  | panicked : String → GoResult α
deriving DecidableEq, Repr

/-- Protocol version pair from src/tls/tls.go:47-49 (fields Major, Minor). -/
structure ProtocolVersion where
  major : Byte
  minor : Byte
deriving DecidableEq, Repr

/-- Result of a successful ClientHello parse, src/tls/tls.go:51-54.  The Go
`ServerName string` is modelled as the list of its bytes. -/
structure ClientHello where
  protocolVersion : ProtocolVersion
  serverName : List Byte
deriving DecidableEq, Repr

/-- Model of `readRecord` (src/tls/tls.go:67-88).  Reads a 5-byte record
header `[contentType, verMajor, verMinor, lenHi, lenLo]`, checks the content
type, then reads a fragment of the announced length.  The reader is the list
of bytes remaining on the wire and a read returns `min(requested, remaining)`
bytes, so a short read surfaces as the clean error the Go code returns on
`n != 5` (resp. `n != ln`).  Returns the fragment and the rest of the wire. -/
def readRecord (contentType : Byte) (input : List Byte) :
    GoResult (List Byte × List Byte) :=
  match input with
  | t :: _ :: _ :: lhi :: llo :: rest =>
    if t ≠ contentType then
      .error "unexpected content type"
    else
      let ln := lhi * 256 + llo
      if ln ≤ rest.length then
        .ok (rest.take ln, rest.drop ln)
      else
        .error "short fragment read"
  | _ => .error "short header read"

/-- The handshake-assembly loop of `readClientHello` (src/tls/tls.go:104-111):
while the accumulated buffer holds fewer than `target = 4 + msgLen` bytes,
read another handshake record and append its fragment.  The Go loop has no
iteration bound, so the model takes a fuel argument (`none` = fuel ran out;
the termination theorem shows fuel `input.length + 1` always suffices).
The result also carries the number of loop iterations executed. -/
def assembleLoop :
    Nat → List Byte → List Byte → Nat →
      Option (GoResult (List Byte × List Byte) × Nat)
  | 0, _, _, _ => none
  | fuel + 1, buf, input, target =>
    if buf.length < target then
      match readRecord 22 input with
      | .ok (frag, rest) =>
        match assembleLoop fuel (buf ++ frag) rest target with
        | none => none
        | some (r, n) => some (r, n + 1)
      | .error m => some (.error m, 1)
      | .panicked m => some (.panicked m, 1)
    else
      some (.ok (buf, input), 0)

/-- Inner server-name entry loop (src/tls/tls.go:182-198).  The state `sn` is
`hi.ServerName`; note the Go loop assigns it afresh on every entry.
`extraCap` is the spare capacity of the Go slice `extbuf` beyond its length:
the bytes of the underlying record array that lie after the extension
payload, plus any over-allocation of the assembled buffer (zero for a
single-record ClientHello whose extension is last, since `readRecord`
allocates the fragment array at exactly the record length).  Go executes
`hi.ServerName = string(extbuf[:nameLen])` BEFORE the length check on the
next line, so it panics exactly when `nameLen` exceeds length + spare
capacity; when `nameLen` exceeds the length but not the capacity the very
next line returns the clean error and the garbage name assigned in between
never escapes the function. -/
def snLoop : Nat → Nat → List Byte → List Byte → GoResult (List Byte)
  | _, _, [], sn => .ok sn
  | 0, _, _ :: _, _ => .panicked "out of fuel (unreachable)"
  | fuel + 1, extraCap, extbuf, _sn =>
    if extbuf.length < 3 then
      .error "serverName, not enough bytes to read name"
    else if extbuf.getD 0 0 ≠ 0 then
      .error "unsupported name_type"
    else
      let nameLen := extbuf.getD 1 0 * 256 + extbuf.getD 2 0
      let extbuf1 := extbuf.drop 3
      if extbuf1.length + extraCap < nameLen then
        .panicked "slice bounds out of range"
      else if extbuf1.length < nameLen then
        .error "not enough bytes to read server_name"
      else
        snLoop fuel extraCap (extbuf1.drop nameLen) (extbuf1.take nameLen)

/-- Head of the server_name extension parse (src/tls/tls.go:177-181): reads
the 2-byte server-name-list length from `extbuf[0]`/`extbuf[1]` (an
unguarded index: a payload shorter than 2 bytes panics), requires it to equal
the remaining payload, then walks the entries. -/
def parseServerNameExt (extraCap : Nat) (extbuf sn : List Byte) :
    GoResult (List Byte) :=
  match extbuf with
  | [] => .panicked "index out of range"
  | [_] => .panicked "index out of range"
  | e0 :: e1 :: rest =>
    if rest.length ≠ e0 * 256 + e1 then
      .error "serverNameCount doesn't match extension length"
    else
      snLoop (rest.length + 1) extraCap rest sn

/-- Extension-walking loop (src/tls/tls.go:158-199).  `slack` is the spare
capacity of the assembled buffer beyond its length (zero whenever the
ClientHello fit in one record). -/
def extLoop : Nat → Nat → List Byte → List Byte → GoResult (List Byte)
  | _, _, [], sn => .ok sn
  | 0, _, _ :: _, _ => .panicked "out of fuel (unreachable)"
  | fuel + 1, slack, buf, sn =>
    if buf.length < 4 then
      .error "not enough bytes left to parse an extension"
    else
      let ext := buf.getD 0 0 * 256 + buf.getD 1 0
      let length := buf.getD 2 0 * 256 + buf.getD 3 0
      let buf1 := buf.drop 4
      if buf1.length < length then
        .error "claimed length of extension is larger than remaining buffer"
      else
        let extbuf := buf1.take length
        let buf2 := buf1.drop length
        if ext ≠ 0 then
          extLoop fuel slack buf2 sn
        else
          match parseServerNameExt (buf2.length + slack) extbuf sn with
          | .ok sn2 => extLoop fuel slack buf2 sn2
          | .error m => .error m
          | .panicked m => .panicked m

/-- Fixed-field parse of the assembled ClientHello body
(src/tls/tls.go:113-156).  Mirrors the Go code statement by statement,
including its unguarded accesses: `buf[4]`/`buf[5]` (legacy version),
`buf[38]` (session-id length) and `buf[0]` after the cipher-suite skip
(compression-methods length) panic when the buffer is shorter than the index,
exactly as Go slice indexing does.  Also faithful to the Go bug of computing
the cipher-suite length as `int(buf[0])<<16 | int(buf[1])`. -/
def parseHello (slack : Nat) (buf : List Byte) : GoResult ClientHello :=
  if buf.length < 6 then .panicked "index out of range"
  else
    let major := buf.getD 4 0
    let minor := buf.getD 5 0
    if major < 3 ∨ (major = 3 ∧ minor < 3) then
      .error "client offered version below minimum"
    else if buf.length < 39 then .panicked "index out of range"
    else
      let sessionIdLen := buf.getD 38 0
      if 32 < sessionIdLen ∨ buf.length < 39 + sessionIdLen then
        .error "sessionIdLen out of range"
      else
        let buf1 := buf.drop (39 + sessionIdLen)
        if buf1.length < 2 then
          .error "insufficient data after trimming session ID"
        else
          let cipherSuiteLen := buf1.getD 0 0 * 65536 + buf1.getD 1 0
          if cipherSuiteLen % 2 = 1 ∨ buf1.length < 2 + cipherSuiteLen then
            .error "cipherSuiteLen not even or buffer too short"
          else
            let buf2 := buf1.drop (2 + cipherSuiteLen)
            if buf2.length = 0 then .panicked "index out of range"
            else
              let cml := buf2.getD 0 0
              if buf2.length < 1 + cml then
                .error "compressionMethodsLen; buffer too short"
              else
                let buf3 := buf2.drop (1 + cml)
                if buf3.length = 0 then .ok ⟨⟨major, minor⟩, []⟩
                else if buf3.length < 2 then
                  .error "buf too short when parsing extensions"
                else
                  let extensionsLength := buf3.getD 0 0 * 256 + buf3.getD 1 0
                  let buf4 := buf3.drop 2
                  if extensionsLength ≠ buf4.length then
                    .error "mismatch in claimed length of extensions"
                  else
                    match extLoop (buf4.length + 1) slack buf4 [] with
                    | .ok sn => .ok ⟨⟨major, minor⟩, sn⟩
                    | .error m => .error m
                    | .panicked m => .panicked m

/-- Model of `readClientHello` (src/tls/tls.go:90-202).  Reads the first
handshake record, checks the handshake type (an empty fragment makes the
unguarded `buf[0]` panic), computes the announced 24-bit message length and
the 65536 ceiling, runs the assembly loop, then parses the body.  `slack` is
the spare array capacity of the assembled buffer (zero for a single-record
ClientHello). -/
def readClientHello (slack : Nat) (input : List Byte) : GoResult ClientHello :=
  match readRecord 22 input with
  | .error m => .error m
  | .panicked m => .panicked m
  | .ok (frag, rest) =>
    if frag.length = 0 then .panicked "index out of range"
    else if frag.getD 0 0 ≠ 1 then .error "expected handshake type ClientHello"
    else if frag.length < 4 then .panicked "index out of range"
    else
        let msgLen := frag.getD 1 0 * 65536 + frag.getD 2 0 * 256 + frag.getD 3 0
        if 65536 < msgLen then .error "handshake message exceeds maximum"
        else
          match assembleLoop (rest.length + 1) frag rest (4 + msgLen) with
          | none => .error "unreachable: assembly fuel exhausted"
          | some (.error m, _) => .error m
          | some (.panicked m, _) => .panicked m
          | some (.ok (buf, _), _) => parseHello slack buf

/-- One call to the underlying reader inside `MemorizingReader.Read`
(src/memobuf.go:10-14): the bytes the underlying `Read` delivered into the
caller's buffer (`b[:n]`) and whether the call also returned an error.  Go
appends `b[:n]` to `mr.buf` before propagating the error, so delivered bytes
are memorized even on failing reads. -/
structure ReadResp where
  data : List Byte
  failed : Bool
deriving DecidableEq, Repr

/-- Runs a sequence of `MemorizingReader.Read` calls starting from memorized
buffer `buf`, returning the final memorized buffer.  Each call appends
exactly the delivered bytes, whether or not the underlying read failed. -/
def memorizingReaderRun : List ReadResp → List Byte → List Byte
  | [], buf => buf
  | r :: rs, buf => memorizingReaderRun rs (buf ++ r.data)

/-- `MemorizingReader.Buffer` (src/memobuf.go:16-18) observed after a fresh
reader (empty buffer) has served the given sequence of reads. -/
def memorizingReaderBuffer (resps : List ReadResp) : List Byte :=
  memorizingReaderRun resps []

/-- Model of `checkHostname` (src/http/http.go:141-148 and the identical
Handler.checkHostname, src/tls/tls.go:474-482): walk the configured suffix
list and return true on the first plain suffix match, false if none matches
(in particular, false for an empty list).  Go strings are byte strings;
hostnames here are lists of characters and `List.isSuffixOf` is Go's
`strings.HasSuffix`. -/
def checkHostname : List (List Char) → List Char → Bool
  | [], _ => false
  | s :: rest, hostname =>
    if s.isSuffixOf hostname then true else checkHostname rest hostname

/-- The policy gate as the handlers actually consult it: `Serve`
(src/tls/tls.go:484-487, src/http/http.go:150-153) installs `checkHostname`
as `HostnameIsAllowed` only when `AllowedHostSuffixes` is non-nil, and
`handle` (src/tls/tls.go:427, src/http/http.go:94) skips the check entirely
when `HostnameIsAllowed` is nil.  `none` models a nil suffix list. -/
def hostnameGate (suffixes : Option (List (List Char))) (hostname : List Char) : Bool :=
  match suffixes with
  | none => true
  | some l => checkHostname l hostname

/-- Local-address synthesis performed inside the factory returned by
`DialUnderSubnet` (src/dial.go:38-50): `localIP` starts as a copy of the
parsed prefix `localNet`, then `copy(localIP[13:], remote4)` overwrites bytes
starting at offset 13.  Go's `copy` transfers `min(len(dst), len(src))`
bytes, i.e. `min(localNet.length - 13, remote4.length)`. -/
def synthesizeLocalIP (localNet remote4 : List Byte) : List Byte :=
  let n := min (localNet.length - 13) remote4.length
  localNet.take 13 ++ remote4.take n ++ localNet.drop (13 + n)

/-- Model of `DialUnderSubnet` (src/dial.go:27-52).  `net.ParseCIDR` is Go
standard library (an external collaborator of the core), so its result is
the model's input: `none` for a parse failure (the Go code propagates the
error), otherwise the parsed prefix bytes together with the mask's
leading-ones count (`localMask.Mask.Size()`).  On success the returned
factory maps the connecting client's 4-byte IPv4 address to the local IP the
per-connection dialer binds. -/
def DialUnderSubnet (parsed : Option (List Byte × Nat)) :
    Except String (List Byte → List Byte) :=
  match parsed with
  | none => .error "ParseCIDR failed"
  | some (localNet, ones) =>
    if 96 < ones then .error "subnet mask is too small"
    else if ones = 0 then .error "subnet mask is faulty"
    else .ok fun remote4 => synthesizeLocalIP localNet remote4

/-- True exactly when `DialUnderSubnet` returned a factory rather than an
error. -/
def dialFactoryOk : Except String (List Byte → List Byte) → Bool
  | .ok _ => true
  | .error _ => false

/-- The parsed form of the CIDR "64:ff9b::/96": the 16 address bytes of
`64:ff9b::` as returned by net.ParseCIDR. -/
def nat64Addr : List Byte :=
  [0x00, 0x64, 0xff, 0x9b, 0, 0, 0, 0, 0, 0, 0, 0, 0, 0, 0, 0]

/-- bufio.ScanLines' dropCR: strip one trailing carriage return from a line
token. -/
def dropCR (l : List Char) : List Char :=
  if l.getLast? = some '\r' then l.dropLast else l

/-- The token stream `bufio.Scanner` with `bufio.ScanLines` and a 1024-byte
buffer cap (src/http/http.go:32-35) produces from the input: tokens are lines
without their terminator (trailing CR stripped), a final unterminated line is
still a token, and a line that needs 1024 or more bytes before its newline
overflows the buffer, ending the scan with `bufio.ErrTooLong` (second
component true; tokens after that point are never produced). -/
def scanTokens : Nat → List Char → List (List Char) × Bool
  | 0, _ => ([], false)
  | fuel + 1, l =>
    match l.findIdx? (· = '\n') with
    | some i =>
      if 1024 ≤ i then ([], true)
      else
        let (toks, e) := scanTokens fuel (l.drop (i + 1))
        (dropCR (l.take i) :: toks, e)
    | none =>
      if 1024 ≤ l.length then ([], true)
      else if l.isEmpty then ([], false)
      else ([dropCR l], false)

/-- Result triple of `hostHeader`: (host, sawAllHeaders, err). -/
structure HostHeaderResult where
  host : List Char
  sawAllHeaders : Bool
  err : Option String
deriving DecidableEq, Repr

/-- The header loop of `hostHeader` (src/http/http.go:42-63): scan header
lines until a blank line (end of headers; returns with no error regardless of
later scanner state), extract the value of a case-sensitive "Host: " prefix,
and fail on a second Host header only when the value captured so far is
non-empty.  When the tokens run out before a blank line, `sawAllHeaders`
stays false and `bs.Err()` reports the buffer overflow if one occurred. -/
def hostLoop (tooLong : Bool) : List (List Char) → List Char → HostHeaderResult
  | [], host => ⟨host, false, if tooLong then some "bufio.Scanner: token too long" else none⟩
  | ln :: rest, host =>
    if ln.isEmpty then ⟨host, true, none⟩
    else if ("Host: ".toList).isPrefixOf ln then
      if host ≠ [] then ⟨[], false, some "saw multiple Host headers"⟩
      else hostLoop tooLong rest (ln.drop 6)
    else hostLoop tooLong rest host

/-- Model of `hostHeader` (src/http/http.go:31-64): scan the request line
(discarded; its absence — or a first line overflowing the buffer — is the
"failed to read initial line" error), then run the header loop. -/
def hostHeader (input : List Char) : HostHeaderResult :=
  match scanTokens (input.length + 1) input with
  | ([], _) => ⟨[], false, some "failed to read initial line"⟩
  | (_ :: headerToks, tooLong) => hostLoop tooLong headerToks []

/-- Encoding of one server-name entry: name_type 0 (host_name), 2-byte
big-endian length, then the name bytes. -/
def encodeName (nm : List Byte) : List Byte :=
  0 :: (nm.length / 256) :: (nm.length % 256) :: nm

/-- Encoding of a server-name entry list. -/
def encodeNames (names : List (List Byte)) : List Byte :=
  (names.map encodeName).flatten

/-- Payload of a server_name extension: 2-byte server-name-list length that
equals the remaining payload, then the entries. -/
def encodeSNI (names : List (List Byte)) : List Byte :=
  ((encodeNames names).length / 256) :: ((encodeNames names).length % 256) :: encodeNames names

/-- A single server_name (type 0) extension: 2-byte type, 2-byte length,
payload. -/
def encodeExt (names : List (List Byte)) : List Byte :=
  0 :: 0 :: ((encodeSNI names).length / 256) :: ((encodeSNI names).length % 256) :: encodeSNI names

/-- Extension block: 2-byte total length that equals the rest of the buffer,
then the single server_name extension. -/
def encodeExts (names : List (List Byte)) : List Byte :=
  ((encodeExt names).length / 256) :: ((encodeExt names).length % 256) :: encodeExt names

/-- ClientHello body: legacy version 3.3, 32-byte random, empty session id,
one cipher suite (2 bytes), one compression method, then the extensions. -/
def encodeBody (names : List (List Byte)) : List Byte :=
  3 :: 3 :: (List.replicate 32 0 ++ (0 :: 0 :: 2 :: 0 :: 0 :: 1 :: 0 :: encodeExts names))

/-- Handshake message: type client_hello(1), 3-byte body length, body. -/
def encodeMsg (names : List (List Byte)) : List Byte :=
  1 :: 0 :: ((encodeBody names).length / 256) :: ((encodeBody names).length % 256) :: encodeBody names

/-- A canonical well-formed single-record ClientHello carrying the given
server-name entries: handshake record header, then the handshake message. -/
def encodeHello (names : List (List Byte)) : List Byte :=
  22 :: 3 :: 1 :: ((encodeMsg names).length / 256) :: ((encodeMsg names).length % 256) :: encodeMsg names

/-- A 15-byte wire input: one well-formed handshake record of length 10 whose
ClientHello announces body length 6 and offers version 3.3, so the assembled
buffer passes the version check with only 10 bytes, and the parser then reads
the session-id length at fixed offset 38 of a 10-byte buffer. -/
def shortHelloInput : List Byte := [22, 3, 1, 0, 10, 1, 0, 0, 6, 3, 3, 0, 0, 0, 0]

/-- A single-record ClientHello whose only extension is a server_name
extension holding one entry that announces a 5-byte host name while zero
payload bytes remain: the entry is `[0, 0, 5]` at the very end of the record,
so `extbuf[:nameLen]` runs past the end of the record array. -/
def sniOverflowInput : List Byte :=
  [22, 3, 1, 0, 56, 1, 0, 0, 52, 3, 3] ++ List.replicate 32 0 ++
  [0, 0, 2, 0, 0, 1, 0, 0, 9, 0, 0, 0, 5, 0, 3, 0, 0, 5]

/-- A single-record ClientHello with empty session id whose cipher-suite
length field is the two bytes `[0x01, 0x00]` (16-bit value 256), followed by
exactly 256 cipher-suite bytes, one compression method, and no extensions:
under the 16-bit reading it parses to the end. -/
def cs256Input : List Byte :=
  [22, 3, 1, 1, 43, 1, 0, 1, 39, 3, 3] ++ List.replicate 32 0 ++ [0, 1, 0] ++
  List.replicate 256 0 ++ [1, 0]

theorem two_byte_roundtrip (n : Nat) : n / 256 * 256 + n % 256 = n := by omega

theorem snLoop_encodeNames (names : List (List Byte)) :
    ∀ fuel extraCap sn, (encodeNames names).length < fuel →
      snLoop fuel extraCap (encodeNames names) sn = .ok (names.getLastD sn) := by
  induction names with
  | nil =>
    intro fuel extraCap sn _
    simp [encodeNames, snLoop]
  | cons nm names ih =>
    intro fuel extraCap sn h
    have hlist : encodeNames (nm :: names) =
        0 :: (nm.length / 256) :: (nm.length % 256) :: (nm ++ encodeNames names) := by
      simp [encodeNames, encodeName]
    rw [hlist] at h ⊢
    match fuel, h with
    | fuel + 1, h =>
      rw [snLoop]
      simp only [List.length_cons, List.getD_cons_zero, List.getD_cons_succ,
        List.drop_succ_cons, List.drop_zero, List.length_append, two_byte_roundtrip]
      rw [if_neg (by omega), if_neg (by simp), if_neg (by omega), if_neg (by omega),
        List.take_left, List.drop_left]
      rw [ih fuel extraCap nm (by simp at h; omega), List.getLastD_cons]
      simp

theorem encodeSNI_length (names : List (List Byte)) :
    (encodeSNI names).length = (encodeNames names).length + 2 := by
  simp [encodeSNI]

theorem encodeExt_length (names : List (List Byte)) :
    (encodeExt names).length = (encodeNames names).length + 6 := by
  simp [encodeExt, encodeSNI_length]

theorem encodeExts_length (names : List (List Byte)) :
    (encodeExts names).length = (encodeNames names).length + 8 := by
  simp [encodeExts, encodeExt_length]

theorem encodeBody_length (names : List (List Byte)) :
    (encodeBody names).length = (encodeNames names).length + 49 := by
  simp [encodeBody, encodeExts_length]

theorem encodeMsg_length (names : List (List Byte)) :
    (encodeMsg names).length = (encodeNames names).length + 53 := by
  simp [encodeMsg, encodeBody_length]

theorem extLoop_encodeExt (names : List (List Byte)) (fuel : Nat) (sn : List Byte) :
    extLoop (fuel + 1) 0 (encodeExt names) sn = .ok (names.getLastD sn) := by
  rw [extLoop]
  have h4 : ¬((encodeExt names).length < 4) := by rw [encodeExt_length]; omega
  rw [if_neg h4]
  have hg0 : (encodeExt names).getD 0 0 = 0 := rfl
  have hg1 : (encodeExt names).getD 1 0 = 0 := rfl
  have hg2 : (encodeExt names).getD 2 0 = (encodeSNI names).length / 256 := rfl
  have hg3 : (encodeExt names).getD 3 0 = (encodeSNI names).length % 256 := rfl
  have hdrop : (encodeExt names).drop 4 = encodeSNI names := rfl
  rw [hg0, hg1, hg2, hg3, hdrop, two_byte_roundtrip]
  rw [if_neg (by omega)]
  rw [List.take_length, List.drop_length]
  rw [if_neg (by simp)]
  show (match parseServerNameExt ([].length + 0) (encodeSNI names) sn with
    | .ok sn2 => extLoop fuel 0 [] sn2
    | .error m => .error m
    | .panicked m => .panicked m) = _
  rw [parseServerNameExt.eq_def]
  simp only [encodeSNI]
  rw [if_neg (by rw [two_byte_roundtrip]; simp), snLoop_encodeNames names _ _ sn (by omega)]
  cases fuel <;> rfl
  simp [encodeExt]

theorem parseHello_encodeMsg (names : List (List Byte))
    (htot : (encodeNames names).length ≤ 65482) :
    parseHello 0 (encodeMsg names) = .ok ⟨⟨3, 3⟩, names.getLastD []⟩ := by
  have hE := encodeMsg_length names
  have hX := encodeExts_length names
  simp only [parseHello]
  have c1 : ¬((encodeMsg names).length < 6) := by omega
  rw [if_neg c1]
  have h4 : (encodeMsg names).getD 4 0 = 3 := rfl
  have h5 : (encodeMsg names).getD 5 0 = 3 := rfl
  rw [h4, h5]
  have c2 : ¬((3:Nat) < 3 ∨ (3:Nat) = 3 ∧ (3:Nat) < 3) := by decide
  rw [if_neg c2]
  have c3 : ¬((encodeMsg names).length < 39) := by omega
  rw [if_neg c3]
  have h38 : (encodeMsg names).getD 38 0 = 0 := rfl
  rw [h38]
  have c4 : ¬(32 < 0 ∨ (encodeMsg names).length < 39 + 0) := by omega
  rw [if_neg c4]
  have hdrop1 : (encodeMsg names).drop (39 + 0) = 0 :: 2 :: 0 :: 0 :: 1 :: 0 :: encodeExts names := rfl
  rw [hdrop1]
  have c5 : ¬((0 :: 2 :: 0 :: 0 :: 1 :: 0 :: encodeExts names).length < 2) := by
    simp only [List.length_cons]; omega
  rw [if_neg c5]
  have hcs0 : (0 :: 2 :: 0 :: 0 :: 1 :: 0 :: encodeExts names).getD 0 0 = 0 := rfl
  have hcs1 : (0 :: 2 :: 0 :: 0 :: 1 :: 0 :: encodeExts names).getD 1 0 = 2 := rfl
  rw [hcs0, hcs1]
  have c6 : ¬((0 * 65536 + 2) % 2 = 1 ∨
      (0 :: 2 :: 0 :: 0 :: 1 :: 0 :: encodeExts names).length < 2 + (0 * 65536 + 2)) := by
    simp only [List.length_cons]; omega
  rw [if_neg c6]
  have hdrop2 : (0 :: 2 :: 0 :: 0 :: 1 :: 0 :: encodeExts names).drop (2 + (0 * 65536 + 2)) =
      1 :: 0 :: encodeExts names := rfl
  rw [hdrop2]
  have c7 : ¬((1 :: 0 :: encodeExts names).length = 0) := by
    simp only [List.length_cons]; omega
  rw [if_neg c7]
  have hcml : (1 :: 0 :: encodeExts names).getD 0 0 = 1 := rfl
  rw [hcml]
  have c8 : ¬((1 :: 0 :: encodeExts names).length < 1 + 1) := by
    simp only [List.length_cons]; omega
  rw [if_neg c8]
  have hdrop3 : (1 :: 0 :: encodeExts names).drop (1 + 1) = encodeExts names := rfl
  rw [hdrop3]
  have c9 : ¬((encodeExts names).length = 0) := by omega
  rw [if_neg c9]
  have c10 : ¬((encodeExts names).length < 2) := by omega
  rw [if_neg c10]
  have hx0 : (encodeExts names).getD 0 0 = (encodeExt names).length / 256 := rfl
  have hx1 : (encodeExts names).getD 1 0 = (encodeExt names).length % 256 := rfl
  have hdrop4 : (encodeExts names).drop 2 = encodeExt names := rfl
  rw [hx0, hx1, hdrop4, two_byte_roundtrip]
  have c11 : ¬((encodeExt names).length ≠ (encodeExt names).length) := by simp
  rw [if_neg c11]
  rw [extLoop_encodeExt names ((encodeExt names).length) []]

theorem readRecord_exact (t : Byte) (msg : List Byte) :
    readRecord t (t :: 3 :: 1 :: (msg.length / 256) :: (msg.length % 256) :: msg) = .ok (msg, []) := by
  simp only [readRecord, two_byte_roundtrip]
  rw [if_neg (by simp), if_pos (le_refl _), List.take_length, List.drop_length]

/-- Claim C3 (corrected, amended claim): for every valid single-record
ClientHello built over a server-name entry list (one extension, entries
well-formed, total size within the record and message ceilings),
`readClientHello` succeeds with version 3.3 and `ServerName` equal to the
LAST host_name entry (`getLastD`), since the Go loop overwrites
`hi.ServerName` on every entry; in particular with exactly one entry `H` the
result is `H`. -/
theorem readClientHello_returns_last_entry (names : List (List Byte))
    (htot : (encodeNames names).length ≤ 65482) :
    readClientHello 0 (encodeHello names) = .ok ⟨⟨3, 3⟩, names.getLastD []⟩ := by
  have hB := encodeBody_length names
  have hM := encodeMsg_length names
  simp only [readClientHello, encodeHello]
  rw [readRecord_exact 22 (encodeMsg names)]
  simp only []
  have c1 : ¬((encodeMsg names).length = 0) := by omega
  rw [if_neg c1]
  have h0 : (encodeMsg names).getD 0 0 = 1 := rfl
  rw [h0]
  have c2 : ¬((1:Nat) ≠ 1) := by simp
  rw [if_neg c2]
  have c3 : ¬((encodeMsg names).length < 4) := by omega
  rw [if_neg c3]
  have h1 : (encodeMsg names).getD 1 0 = 0 := rfl
  have h2 : (encodeMsg names).getD 2 0 = (encodeBody names).length / 256 := rfl
  have h3 : (encodeMsg names).getD 3 0 = (encodeBody names).length % 256 := rfl
  rw [h1, h2, h3]
  have hmsglen : (0:Nat) * 65536 + (encodeBody names).length / 256 * 256 + (encodeBody names).length % 256
      = (encodeBody names).length := by omega
  rw [hmsglen]
  have c4 : ¬(65536 < (encodeBody names).length) := by omega
  rw [if_neg c4]
  have hasm : assembleLoop (([] : List Byte).length + 1) (encodeMsg names) [] (4 + (encodeBody names).length)
      = some (.ok (encodeMsg names, []), 0) := by
    rw [assembleLoop]
    rw [if_neg (by omega)]
  rw [hasm]
  simp only []
  exact parseHello_encodeMsg names htot

/-- Witness for C3: the amended theorem applied to the single entry "foo"
([102, 111, 111]), whose last (and only) entry is the name itself. -/
theorem readClientHello_returns_last_entry_witness :
    (encodeNames [[102, 111, 111]]).length ≤ 65482 ∧
    readClientHello 0 (encodeHello [[102, 111, 111]]) =
      .ok ⟨⟨3, 3⟩, ([[102, 111, 111]] : List (List Byte)).getLastD []⟩ :=
  ⟨by decide, readClientHello_returns_last_entry [[102, 111, 111]] (by decide)⟩

/-- Counterexample for C3 as stated: a valid ClientHello whose server-name
list holds the two entries "a" ([97]) and "b" ([98]) parses with
`ServerName = [98]`, the SECOND (last) entry — not the first as the claim
says. -/
theorem readClientHello_first_entry_refuted :
    readClientHello 0 (encodeHello [[97], [98]]) = .ok ⟨⟨3, 3⟩, [98]⟩ ∧
    ([98] : List Byte) ≠ [97] := by
  constructor <;> decide

theorem readRecord_ok_consumes (t : Byte) (input frag rest : List Byte)
    (h : readRecord t input = .ok (frag, rest)) : rest.length + 5 ≤ input.length := by
  rcases input with _ | ⟨i0, _ | ⟨i1, _ | ⟨i2, _ | ⟨i3, _ | ⟨i4, tail⟩⟩⟩⟩⟩ <;>
    simp only [readRecord] at h
  iterate 5 exact absurd h (by simp)
  split_ifs at h with h1 h2
  all_goals simp at h
  obtain ⟨-, hrest⟩ := h
  subst hrest
  simp only [List.length_drop, List.length_cons]
  omega

theorem readRecord_ne_panicked (t : Byte) (input : List Byte) (m : String) :
    readRecord t input ≠ .panicked m := by
  rcases input with _ | ⟨i0, _ | ⟨i1, _ | ⟨i2, _ | ⟨i3, _ | ⟨i4, tail⟩⟩⟩⟩⟩ <;>
    simp only [readRecord] <;> try simp
  split_ifs <;> simp

/-- Claim C6 (corrected, amended claim): the handshake-assembly loop
terminates on every finite wire input — fuel `input.length + 1` (one
iteration per at-least-5-byte record consumed, plus one) always yields a
result, which is either an assembled buffer of at least the target length or
a clean record-read error.  (The 65536-byte message ceiling plays no role in
this bound; see the counterexample.) -/
theorem assembleLoop_completes (fuel : Nat) :
    ∀ input buf target, input.length < fuel →
      ∃ r n, assembleLoop fuel buf input target = some (r, n) ∧
        ((∃ b rest, r = .ok (b, rest) ∧ target ≤ b.length) ∨ ∃ m, r = .error m) := by
  induction fuel with
  | zero => intro input _ _ h; omega
  | succ fuel ih =>
    intro input buf target h
    rw [assembleLoop]
    by_cases hb : buf.length < target
    · rw [if_pos hb]
      cases hr : readRecord 22 input with
      | ok p =>
        obtain ⟨frag, rest⟩ := p
        have hc := readRecord_ok_consumes 22 input frag rest hr
        obtain ⟨r, n, hrec, hshape⟩ := ih rest (buf ++ frag) target (by omega)
        exact ⟨r, n + 1, by simp only []; rw [hrec], hshape⟩
      | error m => exact ⟨.error m, 1, rfl, Or.inr ⟨m, rfl⟩⟩
      | panicked m => exact absurd hr (readRecord_ne_panicked 22 input m)
    · rw [if_neg hb]
      exact ⟨.ok (buf, input), 0, rfl, Or.inl ⟨buf, input, rfl, by omega⟩⟩

/-- Witness for C6: the termination theorem applied to the concrete 5-byte
wire input of one zero-length record, with target 0 already satisfied. -/
theorem assembleLoop_completes_witness :
    ([22, 3, 1, 0, 0] : List Byte).length < 6 ∧
    ∃ r n, assembleLoop 6 [] ([22, 3, 1, 0, 0] : List Byte) 0 = some (r, n) ∧
      ((∃ b rest, r = .ok (b, rest) ∧ 0 ≤ b.length) ∨ ∃ m, r = .error m) :=
  ⟨by simp, assembleLoop_completes 6 [22, 3, 1, 0, 0] [] 0 (by simp)⟩

theorem assembleLoop_zeroRecords (K : Nat) : ∀ buf target, buf.length < target →
    assembleLoop (K + 1) buf ((List.replicate K ([22, 3, 1, 0, 0] : List Byte)).flatten) target
      = some (.error "short header read", K + 1) := by
  induction K with
  | zero =>
    intro buf target h
    simp [assembleLoop, readRecord, if_pos h]
  | succ K ih =>
    intro buf target h
    have hrep : (List.replicate (K + 1) ([22, 3, 1, 0, 0] : List Byte)).flatten
        = 22 :: 3 :: 1 :: 0 :: 0 :: (List.replicate K ([22, 3, 1, 0, 0] : List Byte)).flatten := by
      simp [List.replicate_succ]
    rw [hrep, assembleLoop, if_pos h]
    have hrr : readRecord 22 (22 :: 3 :: 1 :: 0 :: 0 :: (List.replicate K ([22, 3, 1, 0, 0] : List Byte)).flatten)
        = .ok ([], (List.replicate K ([22, 3, 1, 0, 0] : List Byte)).flatten) := by
      simp [readRecord]
    rw [hrr]
    simp only []
    rw [ih (buf ++ []) target (by simpa using h)]

/-- Counterexample for C6 as stated: on a wire carrying 65541 zero-length
handshake records after a 4-byte partial ClientHello header (target 260
bytes), the assembly loop executes 65542 iterations — more than the
65536-byte message ceiling — while the buffer never grows; the ceiling does
not bound the iteration count. -/
theorem assembleLoop_iterations_exceed_ceiling :
    assembleLoop 65542 [1, 0, 1, 0] ((List.replicate 65541 ([22, 3, 1, 0, 0] : List Byte)).flatten) 260
      = some (.error "short header read", 65542) ∧ 65536 < 65542 :=
  ⟨assembleLoop_zeroRecords 65541 [1, 0, 1, 0] 260 (by simp), by omega⟩

/-- Claim C7 (confirmed): for every sequence of reads served through a
MemorizingReader — including reads whose underlying call returned an error
together with data — the buffer equals the ordered concatenation of all
bytes delivered to callers since creation. -/
theorem memorizingReader_buffer_invariant (resps : List ReadResp) :
    memorizingReaderBuffer resps = (resps.map ReadResp.data).flatten := by
  have haux : ∀ rs buf, memorizingReaderRun rs buf = buf ++ (rs.map ReadResp.data).flatten := by
    intro rs
    induction rs with
    | nil => intro buf; simp [memorizingReaderRun]
    | cons r rst ih => intro buf; simp [memorizingReaderRun, ih]
  simp [memorizingReaderBuffer, haux]

/-- Claim C5 (corrected, amended claim): `checkHostname` permits a hostname
iff it ends with at least one configured suffix under plain suffix
comparison — with an empty suffix list it permits NOTHING; open mode (all
hostnames allowed) arises only because Serve installs no checker for a nil
list and the handler then skips the check (`hostnameGate none`).  With
["example.com"]: "api.example.com" and "evilexample.com" are allowed,
"example.org" is rejected. -/
theorem checkHostname_suffix_semantics :
    (∀ suffixes hostname, checkHostname suffixes hostname = true ↔
      ∃ s ∈ suffixes, s.isSuffixOf hostname = true) ∧
    (∀ hostname, hostnameGate none hostname = true) ∧
    checkHostname ["example.com".toList] ("api.example.com".toList) = true ∧
    checkHostname ["example.com".toList] ("evilexample.com".toList) = true ∧
    checkHostname ["example.com".toList] ("example.org".toList) = false := by
  refine ⟨?_, fun _ => rfl, by decide, by decide, by decide⟩
  intro suffixes hostname
  induction suffixes with
  | nil => simp [checkHostname]
  | cons s rest ih =>
    by_cases h : s.isSuffixOf hostname
    · simp [checkHostname, h, List.isSuffixOf_iff_suffix.mp h]
    · rw [checkHostname, if_neg h, ih]
      simp only [List.mem_cons, exists_eq_or_imp]
      have hns : ¬(s.isSuffixOf hostname = true) := h
      simp [hns]

/-- Counterexample for C5 as stated: with an empty suffix list the claim
says every hostname is permitted (open mode), but `checkHostname` returns
false — the claimed iff fails at suffixes = [] and hostname
"api.example.com". -/
theorem checkHostname_empty_open_mode_refuted :
    ¬(checkHostname [] ("api.example.com".toList) = true ↔
      ([] : List (List Char)) = [] ∨
        ∃ s ∈ ([] : List (List Char)), s.isSuffixOf ("api.example.com".toList) = true) := by
  decide

/-- Claim C9 (confirmed): `DialUnderSubnet` propagates a CIDR parse failure
as an error, rejects every parsed subnet whose mask size is 0 or greater
than 96, and returns a factory (no error) for mask size exactly 96. -/
theorem dialUnderSubnet_validation (p : List Byte) (ones : Nat)
    (h : ones = 0 ∨ 96 < ones) :
    DialUnderSubnet none = .error "ParseCIDR failed" ∧
    dialFactoryOk (DialUnderSubnet (some (p, ones))) = false ∧
    dialFactoryOk (DialUnderSubnet (some (p, 96))) = true := by
  refine ⟨rfl, ?_, rfl⟩
  rcases h with h | h
  · subst h; rfl
  · simp only [DialUnderSubnet]
    rw [if_pos h]
    rfl

/-- Witness for C9: the validation theorem applied to the 64:ff9b::
prefix with the out-of-range mask size 97 (and the accepted size 96). -/
theorem dialUnderSubnet_validation_witness :
    ((97:Nat) = 0 ∨ 96 < 97) ∧
    (DialUnderSubnet none = .error "ParseCIDR failed" ∧
     dialFactoryOk (DialUnderSubnet (some (nat64Addr, 97))) = false ∧
     dialFactoryOk (DialUnderSubnet (some (nat64Addr, 96))) = true) :=
  ⟨Or.inr (by decide), dialUnderSubnet_validation nat64Addr 97 (Or.inr (by decide))⟩

/-- Claim C1 (code bug): the parser does NOT bounds-check every length and
fixed field before use.  Evaluating the code at the failing inputs: a
well-formed 10-byte ClientHello record panics at the unguarded `buf[38]`
(session-id length) instead of returning a clean error, and a ClientHello
whose last server-name entry announces a 5-byte name with 0 bytes remaining
panics at `extbuf[:nameLen]`, which Go executes BEFORE the length check on
the following line. -/
theorem readClientHello_unchecked_reads :
    readClientHello 0 shortHelloInput = .panicked "index out of range" ∧
    readClientHello 0 sniOverflowInput = .panicked "slice bounds out of range" := by
  constructor <;> decide

/-- Claim C2 (code bug): for subnet 64:ff9b::/96 and client 192.0.2.10 the
factory's synthesized local address is 64:ff9b::c0:2 — `copy(localIP[13:],
To4())` copies only min(16-13, 4) = 3 bytes, silently dropping the client's
last octet — not the claimed 64:ff9b::c000:020a with all 4 bytes embedded. -/
theorem dialUnderSubnet_drops_last_octet :
    (DialUnderSubnet (some (nat64Addr, 96))).map (fun f => f [192, 0, 2, 10])
      = .ok [0x00, 0x64, 0xff, 0x9b, 0, 0, 0, 0, 0, 0, 0, 0, 0, 192, 0, 2] ∧
    ([0x00, 0x64, 0xff, 0x9b, 0, 0, 0, 0, 0, 0, 0, 0, 0, 192, 0, 2] : List Byte)
      ≠ [0x00, 0x64, 0xff, 0x9b, 0, 0, 0, 0, 0, 0, 0, 0, 192, 0, 2, 10] := by
  constructor
  · rfl
  · decide

/-- Claim C4 (code bug): the code computes the cipher-suite length as
`int(buf[0])<<16 | int(buf[1])` rather than the 16-bit big-endian value.
On a well-formed ClientHello whose cipher-suite length field is 0x0100
(256), followed by exactly 256 cipher-suite bytes, the code computes 65536,
finds the buffer too short and rejects, instead of skipping 256 bytes and
succeeding. -/
theorem readClientHello_cipher_suite_length_bug :
    readClientHello 0 cs256Input = .error "cipherSuiteLen not even or buffer too short" := by
  decide

/-- Claim C8 (confirmed): the HTTP sniffer returns ("foo.test", true, nil)
on a well-formed request with one Host header; errors on two Host header
lines; and reports sawAllHeaders = false when the blank-line terminator
never arrives. -/
theorem hostHeader_examples :
    hostHeader ("GET / HTTP/1.1\r\nHost: foo.test\r\n\r\n".toList)
      = ⟨"foo.test".toList, true, none⟩ ∧
    hostHeader ("GET / HTTP/1.1\r\nHost: a.test\r\nHost: b.test\r\n\r\n".toList)
      = ⟨[], false, some "saw multiple Host headers"⟩ ∧
    (hostHeader ("GET / HTTP/1.1\r\nHost: foo.test\r\n".toList)).sawAllHeaders = false := by
  refine ⟨by decide, by decide, by decide⟩

/-- Claim C10 (confirmed): the duplicate-Host error fires only when the
previously captured value is non-empty — a first "Host: " line with an empty
value followed by a second Host line yields the second value with no error. -/
theorem hostHeader_empty_first_host :
    hostHeader ("GET / HTTP/1.1\r\nHost: \r\nHost: second.test\r\n\r\n".toList)
      = ⟨"second.test".toList, true, none⟩ := by
  decide
